import Mathlib

/-!
Verification of the text-processing core of a resume-to-portfolio web app
(`src/main.py`).  Strings are embedded as `List Char`, byte buffers as
`List Nat` (each entry `< 256`).  The Python string primitives used by the
program (`str.split`, `str.strip`, `str.replace`, `str.lower`,
`str.endswith`) are modelled below, faithfully to CPython semantics on the
inputs the program uses (nonempty separators, ASCII whitespace).
-/

/-- Python ASCII whitespace test (`str.strip` also strips some Unicode
spaces, which never occur around the delimiters of this program). -/
def pyIsSpace (c : Char) : Bool :=
  c = ' ' || c = '\t' || c = '\n' || c = '\r' || c = '\x0b' || c = '\x0c'

/-- Python `s.strip()`: remove leading and trailing whitespace. -/
def pyStrip (s : List Char) : List Char :=
  ((s.dropWhile pyIsSpace).reverse.dropWhile pyIsSpace).reverse

/-- Leftmost occurrence of the substring `sep` in `s`, split as the part
before the occurrence and the part after it, exactly as Python's
`str.split` / `str.replace` scan for occurrences; `none` when `sep` does
not occur in `s`. -/
def splitFirst (sep : List Char) : List Char → Option (List Char × List Char)
  | [] => none
  | c :: rest =>
    if sep.isPrefixOf (c :: rest) then some ([], (c :: rest).drop sep.length)
    else (splitFirst sep rest).map (fun p => (c :: p.1, p.2))

/-- Fuelled worker for Python `str.split` with a substring separator. -/
def pySplitAux (sep : List Char) : Nat → List Char → List (List Char)
  | 0, s => [s]
  | fuel + 1, s =>
    match splitFirst sep s with
    | none => [s]
    | some (pre, post) => pre :: pySplitAux sep fuel post

/-- Python `text.split(sep)` for a nonempty separator string `sep`. -/
def pySplit (sep s : List Char) : List (List Char) := pySplitAux sep s.length s

theorem splitFirst_some (sep : List Char) :
    ∀ s pre post, splitFirst sep s = some (pre, post) →
      s = pre ++ sep ++ post ∧ post.length + sep.length ≤ s.length := by
  intro s
  induction s with
  | nil => intro pre post h; simp [splitFirst] at h
  | cons c rest ih =>
    intro pre post h
    by_cases hp : sep.isPrefixOf (c :: rest)
    · rw [splitFirst, if_pos hp] at h
      obtain ⟨t, ht⟩ := List.isPrefixOf_iff_prefix.mp hp
      have hpp := Option.some.inj h
      have hpre : pre = [] := by simpa using congrArg Prod.fst hpp
      have hpost : post = (c :: rest).drop sep.length := by
        simpa using (congrArg Prod.snd hpp).symm
      subst hpre
      subst hpost
      rw [← ht, List.drop_left]
      refine ⟨by simp, ?_⟩
      simp only [List.length_append]
      omega
    · rw [splitFirst, if_neg hp] at h
      obtain ⟨⟨pre', post'⟩, hsf, hmap⟩ := Option.map_eq_some'.mp h
      have hpre : pre = c :: pre' := by
        simpa using (congrArg Prod.fst hmap).symm
      have hpost : post = post' := by
        simpa using (congrArg Prod.snd hmap).symm
      obtain ⟨hdec, hlen⟩ := ih pre' post' hsf
      subst hpre hpost
      constructor
      · simp [hdec]
      · simp only [List.length_cons]
        omega

theorem pySplitAux_fuel (sep : List Char) (hsep : sep ≠ []) :
    ∀ f₁ f₂ s, s.length ≤ f₁ → s.length ≤ f₂ →
      pySplitAux sep f₁ s = pySplitAux sep f₂ s := by
  intro f₁
  induction f₁ with
  | zero =>
    intro f₂ s h1 _
    have hs : s = [] := List.eq_nil_of_length_eq_zero (Nat.le_zero.mp h1)
    subst hs
    cases f₂ with
    | zero => rfl
    | succ g₂ => simp [pySplitAux, splitFirst]
  | succ g ih =>
    intro f₂ s h1 h2
    cases hsf : splitFirst sep s with
    | none =>
      cases f₂ with
      | zero =>
        have hs : s = [] := List.eq_nil_of_length_eq_zero (Nat.le_zero.mp h2)
        subst hs
        simp [pySplitAux, splitFirst]
      | succ g₂ => simp [pySplitAux, hsf]
    | some p =>
      obtain ⟨pre, post⟩ := p
      obtain ⟨hdec, hlen⟩ := splitFirst_some sep s pre post hsf
      have hseplen : 0 < sep.length := List.length_pos.mpr hsep
      cases f₂ with
      | zero =>
        exfalso
        have : s.length = 0 := Nat.le_zero.mp h2
        omega
      | succ g₂ =>
        simp only [pySplitAux, hsf]
        exact congrArg (pre :: ·) (ih g₂ post (by omega) (by omega))

theorem pySplit_cons_of_splitFirst (sep s pre post : List Char) (hsep : sep ≠ [])
    (h : splitFirst sep s = some (pre, post)) :
    pySplit sep s = pre :: pySplit sep post := by
  obtain ⟨hdec, hlen⟩ := splitFirst_some sep s pre post h
  have hseplen : 0 < sep.length := List.length_pos.mpr hsep
  have h1 : 1 ≤ s.length := by omega
  obtain ⟨g, hg⟩ : ∃ g, s.length = g + 1 := ⟨s.length - 1, by omega⟩
  rw [pySplit, hg]
  simp only [pySplitAux, h]
  exact congrArg (pre :: ·)
    (pySplitAux_fuel sep hsep g post.length post (by omega) le_rfl)

theorem pySplit_of_none (sep s : List Char) (h : splitFirst sep s = none) :
    pySplit sep s = [s] := by
  rw [pySplit]
  cases hl : s.length with
  | zero => rfl
  | succ g => simp [pySplitAux, h]

theorem pySplit_ne_nil (sep s : List Char) : pySplit sep s ≠ [] := by
  rw [pySplit]
  cases s.length with
  | zero => simp [pySplitAux]
  | succ g =>
    cases h : splitFirst sep s with
    | none => simp [pySplitAux, h]
    | some p => obtain ⟨pre, post⟩ := p; simp [pySplitAux, h]

theorem splitFirst_of_eq_append (sep : List Char) (hsep : sep ≠ []) :
    ∀ A rest, ¬ sep <:+: (A ++ sep.dropLast) →
      splitFirst sep (A ++ sep ++ rest) = some (A, rest) := by
  intro A
  induction A with
  | nil =>
    intro rest _
    obtain ⟨c, sep', hc⟩ : ∃ c sep', sep = c :: sep' := by
      cases sep with
      | nil => exact absurd rfl hsep
      | cons c sep' => exact ⟨c, sep', rfl⟩
    have hform : ([] : List Char) ++ sep ++ rest = c :: (sep' ++ rest) := by
      simp [hc]
    rw [hform, splitFirst]
    have hpref : sep.isPrefixOf (c :: (sep' ++ rest)) := by
      apply List.isPrefixOf_iff_prefix.mpr
      rw [hc]
      exact ⟨rest, by simp⟩
    rw [if_pos hpref]
    have hdrop : (c :: (sep' ++ rest)).drop sep.length = rest := by
      have : c :: (sep' ++ rest) = sep ++ rest := by simp [hc]
      rw [this, List.drop_left]
    rw [hdrop]
  | cons a A' ih =>
    intro rest h
    have hform : (a :: A') ++ sep ++ rest = a :: (A' ++ sep ++ rest) := by simp
    rw [hform, splitFirst]
    have hlast := List.dropLast_append_getLast hsep
    have hnp : ¬ sep.isPrefixOf (a :: (A' ++ sep ++ rest)) := by
      intro hp
      apply h
      have hpref : sep <+: (a :: (A' ++ sep ++ rest)) :=
        List.isPrefixOf_iff_prefix.mp hp
      have hsplit : a :: (A' ++ sep ++ rest) =
          ((a :: A') ++ sep.dropLast) ++ ([sep.getLast hsep] ++ rest) := by
        conv_lhs => rw [← hlast]
        simp
      have hpref2 : ((a :: A') ++ sep.dropLast) <+: (a :: (A' ++ sep ++ rest)) := by
        rw [hsplit]; exact ⟨[sep.getLast hsep] ++ rest, rfl⟩
      have hlen : sep.length ≤ ((a :: A') ++ sep.dropLast).length := by
        simp only [List.length_append, List.length_cons, List.length_dropLast]
        have : 0 < sep.length := List.length_pos.mpr hsep
        omega
      exact (List.prefix_of_prefix_length_le hpref hpref2 hlen).isInfix
    rw [if_neg hnp]
    have h' : ¬ sep <:+: (A' ++ sep.dropLast) := fun hi =>
      h (show sep <:+: (a :: A') ++ sep.dropLast by
        rw [List.cons_append]
        exact List.infix_cons_iff.mpr (Or.inr hi))
    rw [ih rest h']
    rfl

/-- Model of `extract_between` from `build_website_from_spec` (src/main.py lines
141-145): split the full text on the marker; if fewer than 3 pieces result
the segment is the empty string, otherwise the second piece (index 1),
whitespace-trimmed. -/
def extract_between (marker text : List Char) : List Char :=
  if (pySplit marker text).length < 3 then []
  else pyStrip ((pySplit marker text).getD 1 [])

def htmlMarker : List Char := "--html--".toList

def cssMarker : List Char := "--css--".toList

def jsMarker : List Char := "--js--".toList

/-- The three named text fields produced by the site synthesizer. -/
structure SiteBundle where
  html : List Char
  css : List Char
  js : List Char
deriving DecidableEq

/-- The deterministic parsing tail of `build_website_from_spec`
(src/main.py lines 139-155), applied to the raw model response text. -/
def build_website_from_spec (raw : List Char) : SiteBundle :=
  { html := extract_between htmlMarker raw
    css := extract_between cssMarker raw
    js := extract_between jsMarker raw }

theorem extract_between_wellformed (sep A S B : List Char) (hsep : sep ≠ [])
    (hA : ¬ sep <:+: (A ++ sep.dropLast)) (hS : ¬ sep <:+: (S ++ sep.dropLast)) :
    extract_between sep (A ++ sep ++ S ++ sep ++ B) = pyStrip S := by
  have hassoc : A ++ sep ++ S ++ sep ++ B = A ++ sep ++ (S ++ sep ++ B) := by
    simp [List.append_assoc]
  have h1 : splitFirst sep (A ++ sep ++ (S ++ sep ++ B)) = some (A, S ++ sep ++ B) :=
    splitFirst_of_eq_append sep hsep A (S ++ sep ++ B) hA
  have h2 : splitFirst sep (S ++ sep ++ B) = some (S, B) :=
    splitFirst_of_eq_append sep hsep S B hS
  have e1 : pySplit sep (A ++ sep ++ (S ++ sep ++ B)) = A :: S :: pySplit sep B := by
    rw [pySplit_cons_of_splitFirst sep _ A (S ++ sep ++ B) hsep h1,
      pySplit_cons_of_splitFirst sep _ S B hsep h2]
  rw [hassoc, extract_between, e1]
  have hpos : 0 < (pySplit sep B).length :=
    List.length_pos.mpr (pySplit_ne_nil sep B)
  rw [if_neg (by simp only [List.length_cons]; omega)]
  rfl

/-- C1: for every raw model response that contains each of the three markers
at least twice — formalised: `raw` decomposes, for each marker, as
`A ++ marker ++ S ++ marker ++ B` where the marker occurs nowhere earlier
than and nowhere overlapping these two occurrences (so `S` is exactly the
text between the first and the second occurrence, and contains no marker) —
the delimiter parser returns exactly the whitespace-trimmed segments in the
fields `html`, `css`, `js`. -/
theorem delimiter_parsing_wellformed_C1
    (raw A1 S1 B1 A2 S2 B2 A3 S3 B3 : List Char)
    (e1 : raw = A1 ++ htmlMarker ++ S1 ++ htmlMarker ++ B1)
    (hA1 : ¬ htmlMarker <:+: (A1 ++ htmlMarker.dropLast))
    (hS1 : ¬ htmlMarker <:+: (S1 ++ htmlMarker.dropLast))
    (e2 : raw = A2 ++ cssMarker ++ S2 ++ cssMarker ++ B2)
    (hA2 : ¬ cssMarker <:+: (A2 ++ cssMarker.dropLast))
    (hS2 : ¬ cssMarker <:+: (S2 ++ cssMarker.dropLast))
    (e3 : raw = A3 ++ jsMarker ++ S3 ++ jsMarker ++ B3)
    (hA3 : ¬ jsMarker <:+: (A3 ++ jsMarker.dropLast))
    (hS3 : ¬ jsMarker <:+: (S3 ++ jsMarker.dropLast)) :
    build_website_from_spec raw =
      { html := pyStrip S1, css := pyStrip S2, js := pyStrip S3 } := by
  have hh : extract_between htmlMarker raw = pyStrip S1 := by
    rw [e1]; exact extract_between_wellformed _ _ _ _ (by decide) hA1 hS1
  have hc : extract_between cssMarker raw = pyStrip S2 := by
    rw [e2]; exact extract_between_wellformed _ _ _ _ (by decide) hA2 hS2
  have hj : extract_between jsMarker raw = pyStrip S3 := by
    rw [e3]; exact extract_between_wellformed _ _ _ _ (by decide) hA3 hS3
  simp [build_website_from_spec, hh, hc, hj]

theorem delimiter_parsing_wellformed_C1_witness :
    ("--html-- H --html----css-- C --css----js-- J --js--".toList =
        "".toList ++ htmlMarker ++ " H ".toList ++ htmlMarker ++
          "--css-- C --css----js-- J --js--".toList) ∧
    ("--html-- H --html----css-- C --css----js-- J --js--".toList =
        "--html-- H --html--".toList ++ cssMarker ++ " C ".toList ++ cssMarker ++
          "--js-- J --js--".toList) ∧
    ("--html-- H --html----css-- C --css----js-- J --js--".toList =
        "--html-- H --html----css-- C --css--".toList ++ jsMarker ++ " J ".toList ++
          jsMarker ++ "".toList) ∧
    build_website_from_spec "--html-- H --html----css-- C --css----js-- J --js--".toList =
      { html := pyStrip " H ".toList, css := pyStrip " C ".toList,
        js := pyStrip " J ".toList } :=
  ⟨by decide, by decide, by decide,
    delimiter_parsing_wellformed_C1 _ "".toList " H ".toList
      "--css-- C --css----js-- J --js--".toList
      "--html-- H --html--".toList " C ".toList "--js-- J --js--".toList
      "--html-- H --html----css-- C --css--".toList " J ".toList "".toList
      (by decide) (by decide) (by decide) (by decide) (by decide) (by decide)
      (by decide) (by decide) (by decide)⟩

/-- C3: for every raw response and every marker, if splitting the full text
on that marker yields fewer than 3 pieces, that marker's segment is the
empty string; the parser is a total function (never raises), and each of
the three fields is computed from the full text independently of the other
markers' success or failure. -/
theorem parse_failure_isolated_C3 (raw m : List Char)
    (h : (pySplit m raw).length < 3) :
    extract_between m raw = [] ∧
    (build_website_from_spec raw).html = extract_between htmlMarker raw ∧
    (build_website_from_spec raw).css = extract_between cssMarker raw ∧
    (build_website_from_spec raw).js = extract_between jsMarker raw := by
  refine ⟨?_, rfl, rfl, rfl⟩
  rw [extract_between, if_pos h]

theorem parse_failure_isolated_C3_witness :
    (pySplit cssMarker "--html-- H --html--".toList).length < 3 ∧
    (extract_between cssMarker "--html-- H --html--".toList = [] ∧
      (build_website_from_spec "--html-- H --html--".toList).html =
        extract_between htmlMarker "--html-- H --html--".toList ∧
      (build_website_from_spec "--html-- H --html--".toList).css =
        extract_between cssMarker "--html-- H --html--".toList ∧
      (build_website_from_spec "--html-- H --html--".toList).js =
        extract_between jsMarker "--html-- H --html--".toList) :=
  ⟨by decide, parse_failure_isolated_C3 "--html-- H --html--".toList cssMarker (by decide)⟩

/-- Number of starting positions of `s` at which the substring `pat`
matches (every position is counted, overlapping ones included). -/
def countMatches (pat : List Char) : List Char → Nat
  | [] => 0
  | c :: rest => (if pat.isPrefixOf (c :: rest) then 1 else 0) + countMatches pat rest

/-- Property that `pat` has no nontrivial border: no proper nonempty prefix of `pat` is
also a suffix of `pat`.  Occurrences of such a pattern never overlap. -/
def borderFree (pat : List Char) : Prop :=
  ∀ k, k < pat.length → 0 < k → pat.take k ≠ pat.drop (pat.length - k)

theorem not_isPrefixOf_of_length_lt (pat u : List Char) (h : u.length < pat.length) :
    ¬ pat.isPrefixOf u := fun hp =>
  absurd (List.IsPrefix.length_le (List.isPrefixOf_iff_prefix.mp hp)) (by omega)

theorem not_isPrefixOf_drop_of_borderFree (pat s : List Char) (hb : borderFree pat)
    (hp : pat <+: s) (k : Nat) (h0 : 0 < k) (hk : k < pat.length) :
    ¬ pat.isPrefixOf (s.drop k) := by
  intro h2
  obtain ⟨t, ht⟩ := hp
  have hdrop : s.drop k = pat.drop k ++ t := by
    rw [← ht, List.drop_append_of_le_length (by omega)]
  have hp2 : pat <+: pat.drop k ++ t := by
    rw [← hdrop]; exact List.isPrefixOf_iff_prefix.mp h2
  have hp3 : pat.drop k <+: pat.drop k ++ t := ⟨t, rfl⟩
  have hple : (pat.drop k).length ≤ pat.length := by simp [List.length_drop]
  have hp4 : pat.drop k <+: pat := List.prefix_of_prefix_length_le hp3 hp2 hple
  have heq := List.prefix_iff_eq_take.mp hp4
  rw [List.length_drop] at heq
  have hkk : pat.length - (pat.length - k) = k := by omega
  exact hb (pat.length - k) (by omega) (by omega) (by rw [hkk]; exact heq.symm)

theorem countMatches_drop_succ (pat s : List Char) (hpat : pat ≠ []) (a : Nat) :
    countMatches pat (s.drop a) =
      (if pat.isPrefixOf (s.drop a) then 1 else 0) + countMatches pat (s.drop (a + 1)) := by
  cases hd : s.drop a with
  | nil =>
    have hlen : s.length - a = 0 := by
      have := congrArg List.length hd; simpa [List.length_drop] using this
    have hnil : s.drop (a + 1) = [] :=
      List.eq_nil_of_length_eq_zero (by simp [List.length_drop]; omega)
    have hnp : ¬ pat.isPrefixOf ([] : List Char) := fun hp =>
      hpat (List.prefix_nil.mp (List.isPrefixOf_iff_prefix.mp hp))
    rw [hnil]
    simp [countMatches, hnp]
  | cons c r =>
    have hr : s.drop (a + 1) = r := by
      have hdd := List.drop_drop 1 a s
      rw [hd] at hdd
      simpa using hdd.symm
    simp only [hd, hr]
    rfl

theorem countMatches_drop_eq_of_no_match (pat s : List Char) (hpat : pat ≠ []) :
    ∀ d a, (∀ k, a ≤ k → k < a + d → ¬ pat.isPrefixOf (s.drop k)) →
      countMatches pat (s.drop a) = countMatches pat (s.drop (a + d)) := by
  intro d
  induction d with
  | zero => intro a _; rfl
  | succ d' ih =>
    intro a h
    rw [countMatches_drop_succ pat s hpat a, if_neg (h a le_rfl (by omega))]
    have hrec := ih (a + 1) (fun k hk1 hk2 => h k (by omega) (by omega))
    have harith : a + 1 + d' = a + (d' + 1) := by omega
    rw [hrec, harith]
    omega

theorem countMatches_splitFirst_some (pat : List Char) (hpat : pat ≠ [])
    (hb : borderFree pat) :
    ∀ n s pre post, s.length ≤ n → splitFirst pat s = some (pre, post) →
      countMatches pat s = countMatches pat post + 1 := by
  intro n
  induction n with
  | zero =>
    intro s pre post hle h
    have hs : s = [] := List.eq_nil_of_length_eq_zero (Nat.le_zero.mp hle)
    subst hs
    simp [splitFirst] at h
  | succ n' ih =>
    intro s pre post hle h
    cases s with
    | nil => simp [splitFirst] at h
    | cons c rest =>
      by_cases hp : pat.isPrefixOf (c :: rest)
      · rw [splitFirst, if_pos hp] at h
        have hpost : post = (c :: rest).drop pat.length := by
          simpa using (congrArg Prod.snd (Option.some.inj h)).symm
        have hplen : 0 < pat.length := List.length_pos.mpr hpat
        have hno : ∀ k, 1 ≤ k → k < 1 + (pat.length - 1) →
            ¬ pat.isPrefixOf ((c :: rest).drop k) := by
          intro k hk1 hk2
          exact not_isPrefixOf_drop_of_borderFree pat (c :: rest) hb
            (List.isPrefixOf_iff_prefix.mp hp) k (by omega) (by omega)
        have heq := countMatches_drop_eq_of_no_match pat (c :: rest) hpat
          (pat.length - 1) 1 hno
        have harith : 1 + (pat.length - 1) = pat.length := by omega
        rw [harith] at heq
        have hdrop1 : (c :: rest).drop 1 = rest := rfl
        rw [hdrop1] at heq
        rw [countMatches, if_pos hp, heq, hpost]
        omega
      · rw [splitFirst, if_neg hp] at h
        obtain ⟨⟨pre', post'⟩, hsf, hmap⟩ := Option.map_eq_some'.mp h
        have hpost : post = post' := by
          simpa using (congrArg Prod.snd hmap).symm
        subst hpost
        rw [countMatches, if_neg hp]
        have := ih rest pre' post (by simp at hle; omega) hsf
        omega

theorem countMatches_zero_of_splitFirst_none (pat : List Char) :
    ∀ s, splitFirst pat s = none → countMatches pat s = 0 := by
  intro s
  induction s with
  | nil => intro _; rfl
  | cons c rest ih =>
    intro h
    by_cases hp : pat.isPrefixOf (c :: rest)
    · rw [splitFirst, if_pos hp] at h; exact absurd h (by simp)
    · rw [splitFirst, if_neg hp] at h
      rw [countMatches, if_neg hp, ih (Option.map_eq_none'.mp h)]

theorem pySplit_length_eq (pat : List Char) (hpat : pat ≠ []) (hb : borderFree pat) :
    ∀ n s, s.length ≤ n → (pySplit pat s).length = countMatches pat s + 1 := by
  intro n
  induction n with
  | zero =>
    intro s hle
    have hs : s = [] := List.eq_nil_of_length_eq_zero (Nat.le_zero.mp hle)
    subst hs
    simp [pySplit, pySplitAux, countMatches]
  | succ n' ih =>
    intro s hle
    cases hsf : splitFirst pat s with
    | none =>
      rw [pySplit_of_none _ _ hsf, countMatches_zero_of_splitFirst_none pat s hsf]
      rfl
    | some p =>
      obtain ⟨pre, post⟩ := p
      rw [pySplit_cons_of_splitFirst pat s pre post hpat hsf]
      have hlen := (splitFirst_some pat s pre post hsf).2
      have hplen : 0 < pat.length := List.length_pos.mpr hpat
      have hc := countMatches_splitFirst_some pat hpat hb s.length s pre post le_rfl hsf
      have hi := ih post (by omega)
      simp only [List.length_cons, hi, hc]

theorem intercalate_cons_of_ne_nil (sep x : List Char) (l : List (List Char))
    (h : l ≠ []) :
    List.intercalate sep (x :: l) = x ++ sep ++ List.intercalate sep l := by
  cases l with
  | nil => exact absurd rfl h
  | cons y t => simp [List.intercalate, List.intersperse, List.append_assoc]

/-- Fuelled worker for Python `str.replace`: scan left to right for
occurrences of `old`, emit the replacement, and continue scanning after the
occurrence (never inside emitted replacement text). -/
def pyReplaceAux (old rep : List Char) : Nat → List Char → List Char
  | 0, s => s
  | fuel + 1, s =>
    match splitFirst old s with
    | none => s
    | some (pre, post) => pre ++ rep ++ pyReplaceAux old rep fuel post

/-- Python `s.replace(old, rep)` for a nonempty `old`. -/
def pyReplace (old rep s : List Char) : List Char := pyReplaceAux old rep s.length s

theorem pyReplaceAux_fuel (old rep : List Char) (hold : old ≠ []) :
    ∀ f₁ f₂ s, s.length ≤ f₁ → s.length ≤ f₂ →
      pyReplaceAux old rep f₁ s = pyReplaceAux old rep f₂ s := by
  intro f₁
  induction f₁ with
  | zero =>
    intro f₂ s h1 _
    have hs : s = [] := List.eq_nil_of_length_eq_zero (Nat.le_zero.mp h1)
    subst hs
    cases f₂ with
    | zero => rfl
    | succ g₂ => simp [pyReplaceAux, splitFirst]
  | succ g ih =>
    intro f₂ s h1 h2
    cases hsf : splitFirst old s with
    | none =>
      cases f₂ with
      | zero =>
        have hs : s = [] := List.eq_nil_of_length_eq_zero (Nat.le_zero.mp h2)
        subst hs
        simp [pyReplaceAux, splitFirst]
      | succ g₂ => simp [pyReplaceAux, hsf]
    | some p =>
      obtain ⟨pre, post⟩ := p
      obtain ⟨hdec, hlen⟩ := splitFirst_some old s pre post hsf
      have holdlen : 0 < old.length := List.length_pos.mpr hold
      cases f₂ with
      | zero =>
        exfalso
        have : s.length = 0 := Nat.le_zero.mp h2
        omega
      | succ g₂ =>
        simp only [pyReplaceAux, hsf]
        rw [ih g₂ post (by omega) (by omega)]

theorem pyReplace_eq_intercalate (old rep : List Char) (hold : old ≠ []) :
    ∀ n s, s.length ≤ n → pyReplace old rep s = List.intercalate rep (pySplit old s) := by
  intro n
  induction n with
  | zero =>
    intro s hle
    have hs : s = [] := List.eq_nil_of_length_eq_zero (Nat.le_zero.mp hle)
    subst hs
    simp [pyReplace, pyReplaceAux, pySplit, pySplitAux, List.intercalate]
  | succ n' ih =>
    intro s hle
    cases hsf : splitFirst old s with
    | none =>
      rw [pySplit_of_none _ _ hsf]
      simp only [List.intercalate, List.intersperse, List.flatten]
      cases hl : s.length with
      | zero => simp [pyReplace, hl, pyReplaceAux]
      | succ g => simp [pyReplace, hl, pyReplaceAux, hsf]
    | some p =>
      obtain ⟨pre, post⟩ := p
      obtain ⟨hdec, hlen⟩ := splitFirst_some old s pre post hsf
      have holdlen : 0 < old.length := List.length_pos.mpr hold
      obtain ⟨g, hg⟩ : ∃ g, s.length = g + 1 := ⟨s.length - 1, by omega⟩
      rw [pySplit_cons_of_splitFirst old s pre post hold hsf,
        intercalate_cons_of_ne_nil rep pre _ (pySplit_ne_nil old post)]
      rw [pyReplace, hg]
      simp only [pyReplaceAux, hsf]
      rw [pyReplaceAux_fuel old rep hold g post.length post (by omega) le_rfl]
      rw [← pyReplace]
      rw [ih post (by omega)]

theorem intercalate_pySplit (pat : List Char) (hpat : pat ≠ []) :
    ∀ n s, s.length ≤ n → List.intercalate pat (pySplit pat s) = s := by
  intro n
  induction n with
  | zero =>
    intro s hle
    have hs : s = [] := List.eq_nil_of_length_eq_zero (Nat.le_zero.mp hle)
    subst hs
    simp [pySplit, pySplitAux, List.intercalate]
  | succ n' ih =>
    intro s hle
    cases hsf : splitFirst pat s with
    | none =>
      rw [pySplit_of_none _ _ hsf]
      simp [List.intercalate, List.intersperse]
    | some p =>
      obtain ⟨pre, post⟩ := p
      obtain ⟨hdec, hlen⟩ := splitFirst_some pat s pre post hsf
      have hplen : 0 < pat.length := List.length_pos.mpr hpat
      rw [pySplit_cons_of_splitFirst pat s pre post hpat hsf,
        intercalate_cons_of_ne_nil pat pre _ (pySplit_ne_nil pat post),
        ih post (by omega)]
      exact hdec.symm

theorem not_infix_of_splitFirst_none (old : List Char) (hold : old ≠ []) :
    ∀ s, splitFirst old s = none → ¬ old <:+: s := by
  intro s
  induction s with
  | nil => intro _ hi; exact hold (List.infix_nil.mp hi)
  | cons c rest ih =>
    intro h hi
    by_cases hp : old.isPrefixOf (c :: rest)
    · rw [splitFirst, if_pos hp] at h; exact absurd h (by simp)
    · rw [splitFirst, if_neg hp] at h
      rcases List.infix_cons_iff.mp hi with hpre | hinf
      · exact hp (List.isPrefixOf_iff_prefix.mpr hpre)
      · exact ih (Option.map_eq_none'.mp h) hinf

theorem not_infix_pre_of_splitFirst_some (old : List Char) (hold : old ≠ []) :
    ∀ s pre post, splitFirst old s = some (pre, post) → ¬ old <:+: pre := by
  intro s
  induction s with
  | nil => intro pre post h; simp [splitFirst] at h
  | cons c rest ih =>
    intro pre post h hi
    by_cases hp : old.isPrefixOf (c :: rest)
    · rw [splitFirst, if_pos hp] at h
      have hpre : pre = [] := by
        simpa using congrArg Prod.fst (Option.some.inj h)
      subst hpre
      exact hold (List.infix_nil.mp hi)
    · rw [splitFirst, if_neg hp] at h
      obtain ⟨⟨pre', post'⟩, hsf, hmap⟩ := Option.map_eq_some'.mp h
      have hpre : pre = c :: pre' := by
        simpa using (congrArg Prod.fst hmap).symm
      subst hpre
      rcases List.infix_cons_iff.mp hi with hpre2 | hinf
      · obtain ⟨hdec, _⟩ := splitFirst_some old rest pre' post' hsf
        apply hp
        apply List.isPrefixOf_iff_prefix.mpr
        have hcp : c :: pre' <+: c :: rest := by
          rw [hdec]
          exact ⟨old ++ post', by simp [List.append_assoc]⟩
        exact hpre2.trans hcp
      · exact ih pre' post' hsf hinf

theorem pySplit_pieces_clean (old : List Char) (hold : old ≠ []) :
    ∀ n s, s.length ≤ n → ∀ p ∈ pySplit old s, ¬ old <:+: p := by
  intro n
  induction n with
  | zero =>
    intro s hle p hp
    have hs : s = [] := List.eq_nil_of_length_eq_zero (Nat.le_zero.mp hle)
    subst hs
    have : p = [] := by simpa [pySplit, pySplitAux] using hp
    subst this
    exact fun hi => hold (List.infix_nil.mp hi)
  | succ n' ih =>
    intro s hle p hp
    cases hsf : splitFirst old s with
    | none =>
      rw [pySplit_of_none _ _ hsf] at hp
      have hps : p = s := by simpa using hp
      rw [hps]
      exact not_infix_of_splitFirst_none old hold s hsf
    | some q =>
      obtain ⟨pre, post⟩ := q
      obtain ⟨hdec, hlen⟩ := splitFirst_some old s pre post hsf
      have holdlen : 0 < old.length := List.length_pos.mpr hold
      rw [pySplit_cons_of_splitFirst old s pre post hold hsf] at hp
      rcases List.mem_cons.mp hp with hpp | hpp
      · rw [hpp]
        exact not_infix_pre_of_splitFirst_some old hold s pre post hsf
      · exact ih post (by omega) p hpp

/-- The pattern matched by the link-rewrite step of
`sanitize_html_for_preview` (src/main.py line 186). -/
def aTagPat : List Char := "<a ".toList

/-- The replacement text injected by the link-rewrite step
(src/main.py line 186). -/
def aTagRepl : List Char := "<a target=\"_blank\" rel=\"noopener noreferrer\" ".toList

/-- The CSS override block of `force_light_theme` (src/main.py lines
169-182), byte for byte. -/
def override_css : List Char :=
  "\n    <style>\n    body, html \x7b\n        background-color: #ffffff !important;\n        color: #111111 !important;\n    \x7d\n    * \x7b\n        color: inherit !important;\n    \x7d\n    a \x7b\n        color: #1a73e8 !important;\n    \x7d\n    </style>\n    ".toList

/-- Model of `force_light_theme` (src/main.py lines 168-183): wrap the fragment in a
document shell with the style override injected in the head. -/
def force_light_theme (html : List Char) : List Char :=
  "<!DOCTYPE html><html><head>".toList ++ override_css ++ "</head><body>".toList
    ++ html ++ "</body></html>".toList

/-- Model of `sanitize_html_for_preview` (src/main.py lines 185-188): rewrite anchor
tags, then wrap with the light-theme shell. -/
def sanitize_html_for_preview (html : List Char) : List Char :=
  force_light_theme (pyReplace aTagPat aTagRepl html)

instance (pat : List Char) : Decidable (borderFree pat) := by
  unfold borderFree; infer_instance

/-- C6: the link-rewrite step of `sanitize_html_for_preview` equals
splitting the input on the literal `<a ` pattern and re-joining the pieces
with the attribute-injecting replacement: every literal occurrence is
rewritten (the piece count exceeds the occurrence count by exactly one),
nothing else is modified (re-joining the same pieces with the original
pattern restores the input), no piece contains the pattern, and occurrences
inside injected replacement text are never rewritten again. -/
theorem link_rewrite_exact_C6 (s : List Char) :
    sanitize_html_for_preview s = force_light_theme (pyReplace aTagPat aTagRepl s) ∧
    pyReplace aTagPat aTagRepl s = List.intercalate aTagRepl (pySplit aTagPat s) ∧
    List.intercalate aTagPat (pySplit aTagPat s) = s ∧
    (pySplit aTagPat s).length = countMatches aTagPat s + 1 ∧
    ∀ p ∈ pySplit aTagPat s, ¬ aTagPat <:+: p :=
  ⟨rfl,
    pyReplace_eq_intercalate _ _ (by decide) s.length s le_rfl,
    intercalate_pySplit _ (by decide) s.length s le_rfl,
    pySplit_length_eq _ (by decide) (by decide) s.length s le_rfl,
    pySplit_pieces_clean _ (by decide) s.length s le_rfl⟩

theorem isPrefixOf_append_iff_of_le (pat a b : List Char)
    (h : pat.length ≤ a.length) :
    pat.isPrefixOf (a ++ b) ↔ pat.isPrefixOf a := by
  rw [List.isPrefixOf_iff_prefix, List.isPrefixOf_iff_prefix]
  exact List.isPrefix_append_of_length h

theorem countMatches_append (pat x y : List Char)
    (h : ∀ k, k < x.length → x.length < k + pat.length →
      (pat.isPrefixOf (List.drop k x ++ y) ↔ pat.isPrefixOf (List.drop k x))) :
    countMatches pat (x ++ y) = countMatches pat x + countMatches pat y := by
  induction x with
  | nil => simp [countMatches]
  | cons c x' ih =>
    have hif : pat.isPrefixOf (c :: (x' ++ y)) ↔ pat.isPrefixOf (c :: x') := by
      by_cases hl : pat.length ≤ (c :: x').length
      · have := isPrefixOf_append_iff_of_le pat (c :: x') y hl
        simpa using this
      · have := h 0 (by simp) (by simp at hl ⊢; omega)
        simpa using this
    have h' : ∀ k, k < x'.length → x'.length < k + pat.length →
        (pat.isPrefixOf (List.drop k x' ++ y) ↔ pat.isPrefixOf (List.drop k x')) := by
      intro k hk1 hk2
      have := h (k + 1) (by simp; omega) (by simp; omega)
      simpa [List.drop_succ_cons] using this
    show (if pat.isPrefixOf (c :: (x' ++ y)) then 1 else 0) + countMatches pat (x' ++ y) =
      ((if pat.isPrefixOf (c :: x') then 1 else 0) + countMatches pat x') +
        countMatches pat y
    rw [ih h']
    by_cases hp : pat.isPrefixOf (c :: x')
    · rw [if_pos hp, if_pos (hif.mpr hp)]
      omega
    · rw [if_neg hp, if_neg (fun hq => hp (hif.mp hq))]
      omega

theorem not_isPrefixOf_append_of_take_ne (pat u y : List Char)
    (hlen : u.length ≤ pat.length) (hne : pat.take u.length ≠ u) :
    ¬ pat.isPrefixOf (u ++ y) := by
  intro hp
  have hu : u <+: u ++ y := ⟨y, rfl⟩
  have hpre : pat <+: u ++ y := List.isPrefixOf_iff_prefix.mp hp
  have := List.prefix_of_prefix_length_le hu hpre hlen
  exact hne (List.prefix_iff_eq_take.mp this).symm

theorem isPrefixOf_drop_of_isPrefixOf_append (pat u y : List Char)
    (hp : pat.isPrefixOf (u ++ y)) (hlen : u.length ≤ pat.length) :
    (pat.drop u.length).isPrefixOf y := by
  obtain ⟨t, ht⟩ := List.isPrefixOf_iff_prefix.mp hp
  apply List.isPrefixOf_iff_prefix.mpr
  refine ⟨t, ?_⟩
  have hdd := congrArg (List.drop u.length) ht
  rw [List.drop_append_of_le_length hlen, List.drop_left] at hdd
  exact hdd

theorem countMatches_append_left_concrete (pat x y : List Char)
    (hx : ∀ k, k < x.length → x.length < k + pat.length →
      pat.take (x.length - k) ≠ List.drop k x) :
    countMatches pat (x ++ y) = countMatches pat x + countMatches pat y := by
  apply countMatches_append
  intro k hk1 hk2
  have hdl : (List.drop k x).length = x.length - k := by simp
  refine iff_of_false ?_ (not_isPrefixOf_of_length_lt _ _ (by rw [hdl]; omega))
  apply not_isPrefixOf_append_of_take_ne
  · rw [hdl]; omega
  · rw [hdl]; exact hx k hk1 hk2

theorem countMatches_append_right_concrete (pat x y : List Char)
    (hy : ∀ j, j < pat.length → 0 < j → ¬ (pat.drop j).isPrefixOf y) :
    countMatches pat (x ++ y) = countMatches pat x + countMatches pat y := by
  apply countMatches_append
  intro k hk1 hk2
  have hdl : (List.drop k x).length = x.length - k := by simp
  refine iff_of_false ?_ (not_isPrefixOf_of_length_lt _ _ (by rw [hdl]; omega))
  intro hp
  have hlen : (List.drop k x).length ≤ pat.length := by rw [hdl]; omega
  have hd := isPrefixOf_drop_of_isPrefixOf_append pat (List.drop k x) y hp hlen
  exact hy (List.drop k x).length (by rw [hdl]; omega) (by rw [hdl]; omega) hd

set_option maxRecDepth 100000

/-- The literal style-block opening tag. -/
def styleOpenTag : List Char := "<style>".toList

/-- The literal style-block closing tag. -/
def styleCloseTag : List Char := "</style>".toList

/-- Everything `force_light_theme` prepends before the fragment. -/
def themeHead : List Char :=
  "<!DOCTYPE html><html><head>".toList ++ override_css ++ "</head><body>".toList

/-- Everything `force_light_theme` appends after the fragment. -/
def themeTail : List Char := "</body></html>".toList

/-- C7 fails as stated: for the fragment `<style></style>` the wrapper
output contains two style blocks, not exactly one. -/
theorem theme_lock_C7_counterexample :
    countMatches styleOpenTag (force_light_theme "<style></style>".toList) ≠ 1 := by
  decide

/-- C7 (amended): for every input fragment that does not itself contain a
style-block tag, `force_light_theme` produces the document shell around the
unmodified fragment, the fragment is a contiguous substring of the output,
and the output contains exactly one style-block opening tag and exactly one
closing tag (in general the wrapper adds exactly one style block to
whatever the fragment already contains, so a fragment with its own style
block yields more than one). -/
theorem theme_lock_single_style_C7 (h : List Char)
    (h1 : countMatches styleOpenTag h = 0)
    (h2 : countMatches styleCloseTag h = 0) :
    force_light_theme h = themeHead ++ h ++ themeTail ∧
    h <:+: force_light_theme h ∧
    countMatches styleOpenTag (force_light_theme h) = 1 ∧
    countMatches styleCloseTag (force_light_theme h) = 1 := by
  have hform : force_light_theme h = themeHead ++ (h ++ themeTail) := by
    simp [force_light_theme, themeHead, themeTail, List.append_assoc]
  have hopen : countMatches styleOpenTag (force_light_theme h) = 1 := by
    rw [hform,
      countMatches_append_left_concrete _ _ _ (by decide),
      countMatches_append_right_concrete _ _ _ (by decide), h1]
    have cH : countMatches styleOpenTag themeHead = 1 := by decide
    have cT : countMatches styleOpenTag themeTail = 0 := by decide
    rw [cH, cT]
  have hclose : countMatches styleCloseTag (force_light_theme h) = 1 := by
    rw [hform,
      countMatches_append_left_concrete _ _ _ (by decide),
      countMatches_append_right_concrete _ _ _ (by decide), h2]
    have cH : countMatches styleCloseTag themeHead = 1 := by decide
    have cT : countMatches styleCloseTag themeTail = 0 := by decide
    rw [cH, cT]
  refine ⟨by rw [hform]; simp [List.append_assoc], ?_, hopen, hclose⟩
  exact ⟨themeHead, themeTail, by rw [hform]; simp [List.append_assoc]⟩

theorem theme_lock_single_style_C7_witness :
    countMatches styleOpenTag "<p>hi</p>".toList = 0 ∧
    countMatches styleCloseTag "<p>hi</p>".toList = 0 ∧
    (force_light_theme "<p>hi</p>".toList =
        themeHead ++ "<p>hi</p>".toList ++ themeTail ∧
      "<p>hi</p>".toList <:+: force_light_theme "<p>hi</p>".toList ∧
      countMatches styleOpenTag (force_light_theme "<p>hi</p>".toList) = 1 ∧
      countMatches styleCloseTag (force_light_theme "<p>hi</p>".toList) = 1) :=
  ⟨by decide, by decide, theme_lock_single_style_C7 _ (by decide) (by decide)⟩

/-- An uploaded file as the framework's uploader presents it: file name,
declared media type, raw byte content. -/
structure UploadedFile where
  name : List Char
  type : List Char
  content : List Nat

/-- Python `s.lower()` (every name this program compares is ASCII). -/
def pyLower (s : List Char) : List Char := s.map Char.toLower

/-- Python `s.endswith(sfx)`. -/
def pyEndsWith (sfx s : List Char) : Bool := sfx.isSuffixOf s

def pdfMediaType : List Char := "application/pdf".toList

def docxMediaType : List Char :=
  "application/vnd.openxmlformats-officedocument.wordprocessingml.document".toList

def mswordMediaType : List Char := "application/msword".toList

/-- Model of `extract_resume_text` (src/main.py lines 35-50).  The two container
decoders (PyPDF2 / python-docx) are external libraries, so they enter the
model as the function parameters `pdfExtract` and `docxExtract`; the
routing logic itself is translated clause for clause. -/
def extract_resume_text (pdfExtract docxExtract : List Nat → List Char) :
    Option UploadedFile → List Char
  | none => []
  | some f =>
    if f.type = pdfMediaType ∨ pyEndsWith ".pdf".toList (pyLower f.name) then
      pdfExtract f.content
    else if (f.type = docxMediaType ∨ f.type = mswordMediaType) ∨
        pyEndsWith ".docx".toList (pyLower f.name) then
      docxExtract f.content
    else []

/-- C4 fails as stated: a file whose declared media type is the DOCX type
but whose name ends in `.pdf` is routed to the PDF extractor, so the
declared media type does not determine the extractor regardless of the
filename extension. -/
theorem media_type_first_C4_counterexample :
    extract_resume_text (fun _ => "P".toList) (fun _ => "D".toList)
        (some { name := "cv.pdf".toList, type := docxMediaType, content := [] }) =
      "P".toList ∧ ("P".toList : List Char) ≠ "D".toList := by
  constructor
  · decide
  · decide

/-- C4 (amended): the PDF clause is tested first, with media type and
extension disjoined inside each clause.  A declared `application/pdf` type
always selects the PDF extractor; a Word media type selects the DOCX
extractor unless the lowercased name ends in `.pdf`, in which case the PDF
extractor wins; a lowercased name ending in `.docx` selects the DOCX
extractor even under an unsupported media type (provided the PDF clause
did not fire); when nothing matches, and when no file is supplied, the
empty string is returned (the function is total, so it never raises). -/
theorem extract_routing_C4 (pdfExtract docxExtract : List Nat → List Char)
    (f : UploadedFile) :
    (f.type = pdfMediaType →
      extract_resume_text pdfExtract docxExtract (some f) = pdfExtract f.content) ∧
    ((f.type = docxMediaType ∨ f.type = mswordMediaType) →
      pyEndsWith ".pdf".toList (pyLower f.name) = false →
      extract_resume_text pdfExtract docxExtract (some f) = docxExtract f.content) ∧
    ((f.type = docxMediaType ∨ f.type = mswordMediaType) →
      pyEndsWith ".pdf".toList (pyLower f.name) = true →
      extract_resume_text pdfExtract docxExtract (some f) = pdfExtract f.content) ∧
    (f.type ≠ pdfMediaType →
      pyEndsWith ".pdf".toList (pyLower f.name) = false →
      pyEndsWith ".docx".toList (pyLower f.name) = true →
      extract_resume_text pdfExtract docxExtract (some f) = docxExtract f.content) ∧
    (f.type ≠ pdfMediaType → f.type ≠ docxMediaType → f.type ≠ mswordMediaType →
      pyEndsWith ".pdf".toList (pyLower f.name) = false →
      pyEndsWith ".docx".toList (pyLower f.name) = false →
      extract_resume_text pdfExtract docxExtract (some f) = []) ∧
    extract_resume_text pdfExtract docxExtract none = [] := by
  refine ⟨?_, ?_, ?_, ?_, ?_, rfl⟩
  · intro h1
    simp [extract_resume_text, h1]
  · intro h1 h2
    have hne : f.type ≠ pdfMediaType := by
      rcases h1 with h | h <;> rw [h] <;> decide
    have hc1 : ¬ (f.type = pdfMediaType ∨
        pyEndsWith ".pdf".toList (pyLower f.name) = true) := by
      rintro (hh | hh)
      · exact hne hh
      · rw [h2] at hh; exact Bool.false_ne_true hh
    show (if f.type = pdfMediaType ∨ pyEndsWith ".pdf".toList (pyLower f.name) = true
        then pdfExtract f.content
        else if (f.type = docxMediaType ∨ f.type = mswordMediaType) ∨
            pyEndsWith ".docx".toList (pyLower f.name) = true
          then docxExtract f.content else []) = docxExtract f.content
    rw [if_neg hc1, if_pos (Or.inl h1)]
  · intro h1 h2
    show (if f.type = pdfMediaType ∨ pyEndsWith ".pdf".toList (pyLower f.name) = true
        then pdfExtract f.content
        else if (f.type = docxMediaType ∨ f.type = mswordMediaType) ∨
            pyEndsWith ".docx".toList (pyLower f.name) = true
          then docxExtract f.content else []) = pdfExtract f.content
    rw [if_pos (Or.inr h2)]
  · intro h1 h2 h3
    have hc1 : ¬ (f.type = pdfMediaType ∨
        pyEndsWith ".pdf".toList (pyLower f.name) = true) := by
      rintro (hh | hh)
      · exact h1 hh
      · rw [h2] at hh; exact Bool.false_ne_true hh
    show (if f.type = pdfMediaType ∨ pyEndsWith ".pdf".toList (pyLower f.name) = true
        then pdfExtract f.content
        else if (f.type = docxMediaType ∨ f.type = mswordMediaType) ∨
            pyEndsWith ".docx".toList (pyLower f.name) = true
          then docxExtract f.content else []) = docxExtract f.content
    rw [if_neg hc1, if_pos (Or.inr h3)]
  · intro h1 h2 h3 h4 h5
    have hc1 : ¬ (f.type = pdfMediaType ∨
        pyEndsWith ".pdf".toList (pyLower f.name) = true) := by
      rintro (hh | hh)
      · exact h1 hh
      · rw [h4] at hh; exact Bool.false_ne_true hh
    have hc2 : ¬ ((f.type = docxMediaType ∨ f.type = mswordMediaType) ∨
        pyEndsWith ".docx".toList (pyLower f.name) = true) := by
      rintro ((hh | hh) | hh)
      · exact h2 hh
      · exact h3 hh
      · rw [h5] at hh; exact Bool.false_ne_true hh
    show (if f.type = pdfMediaType ∨ pyEndsWith ".pdf".toList (pyLower f.name) = true
        then pdfExtract f.content
        else if (f.type = docxMediaType ∨ f.type = mswordMediaType) ∨
            pyEndsWith ".docx".toList (pyLower f.name) = true
          then docxExtract f.content else []) = []
    rw [if_neg hc1, if_neg hc2]

/-- A concrete upload with an unsupported media type and a `.docx` name,
used to witness the filename fallback of C4. -/
def plainTypedDocxFile : UploadedFile :=
  ⟨"cv.docx".toList, "text/plain".toList, []⟩

theorem extract_routing_C4_witness :
    extract_resume_text (fun _ => "P".toList) (fun _ => "D".toList)
        (some { name := "r.docx".toList, type := pdfMediaType, content := [] }) =
      "P".toList ∧
    extract_resume_text (fun _ => "P".toList) (fun _ => "D".toList)
        (some plainTypedDocxFile) = "D".toList ∧
    extract_resume_text (fun _ => "P".toList) (fun _ => "D".toList) none = [] :=
  ⟨(extract_routing_C4 (fun _ => "P".toList) (fun _ => "D".toList)
      { name := "r.docx".toList, type := pdfMediaType, content := [] }).1 rfl,
    (extract_routing_C4 (fun _ => "P".toList) (fun _ => "D".toList)
      plainTypedDocxFile).2.2.2.1 (by decide) (by decide) (by decide),
    (extract_routing_C4 (fun _ => "P".toList) (fun _ => "D".toList)
      { name := "r.docx".toList, type := pdfMediaType, content := [] }).2.2.2.2.2⟩

/-- C9: a file with the legacy Word media type `application/msword` whose
lowercased name does not end in `.pdf` is routed to the paragraph-based
(docx) extractor, although the advertised supported formats are only PDF
and DOCX. -/
theorem msword_routed_to_docx_C9 (pdfExtract docxExtract : List Nat → List Char)
    (f : UploadedFile) (h1 : f.type = mswordMediaType)
    (h2 : pyEndsWith ".pdf".toList (pyLower f.name) = false) :
    extract_resume_text pdfExtract docxExtract (some f) = docxExtract f.content := by
  have hne : f.type ≠ pdfMediaType := by rw [h1]; decide
  have hc1 : ¬ (f.type = pdfMediaType ∨
      pyEndsWith ".pdf".toList (pyLower f.name) = true) := by
    rintro (hh | hh)
    · exact hne hh
    · rw [h2] at hh; exact Bool.false_ne_true hh
  show (if f.type = pdfMediaType ∨ pyEndsWith ".pdf".toList (pyLower f.name) = true
      then pdfExtract f.content
      else if (f.type = docxMediaType ∨ f.type = mswordMediaType) ∨
          pyEndsWith ".docx".toList (pyLower f.name) = true
        then docxExtract f.content else []) = docxExtract f.content
  rw [if_neg hc1, if_pos (Or.inl (Or.inr h1))]

/-- A concrete legacy-Word-typed upload used to witness C9. -/
def mswordFile : UploadedFile :=
  ⟨"cv.doc".toList, mswordMediaType, []⟩

theorem msword_routed_to_docx_C9_witness :
    mswordFile.type = mswordMediaType ∧
    pyEndsWith ".pdf".toList (pyLower mswordFile.name) = false ∧
    extract_resume_text (fun _ => "P".toList) (fun _ => "D".toList)
      (some mswordFile) = "D".toList :=
  ⟨rfl, by decide,
    msword_routed_to_docx_C9 (fun _ => "P".toList) (fun _ => "D".toList)
      mswordFile rfl (by decide)⟩

/-- Model of `extract_text_from_pdf` (src/main.py lines 23-28).  PyPDF2's
`PdfReader` is an external library: a decoded document enters the model as
the list of its pages in document order, each page carrying the text its
text layer exposes (`none` when `page.extract_text()` returns no text, in
which case the code substitutes the empty string via `or ""`); the chunks
are then joined with a newline, exactly as the source does. -/
def extract_text_from_pdf (pages : List (Option (List Char))) : List Char :=
  List.intercalate ['\n'] (pages.map (fun p => p.getD []))

theorem count_intercalate_single (c : Char) :
    ∀ ls : List (List Char), ls ≠ [] → (∀ l ∈ ls, c ∉ l) →
      (List.intercalate [c] ls).count c = ls.length - 1 := by
  intro ls
  induction ls with
  | nil => intro h _; exact absurd rfl h
  | cons x t ih =>
    intro _ hmem
    cases t with
    | nil =>
      have : List.intercalate [c] [x] = x := by simp [List.intercalate]
      rw [this]
      simp [List.count_eq_zero.mpr (hmem x (List.mem_singleton.mpr rfl))]
    | cons y t' =>
      rw [intercalate_cons_of_ne_nil [c] x (y :: t') (by simp)]
      rw [List.count_append, List.count_append]
      have hx : x.count c = 0 :=
        List.count_eq_zero.mpr (hmem x (List.mem_cons_self x _))
      have hc : List.count c [c] = 1 := by simp
      have ht := ih (by simp) (fun l hl => hmem l (List.mem_cons_of_mem x hl))
      rw [hx, hc, ht]
      simp only [List.length_cons]
      omega

/-- C5: for every decoded N-page document (N ≥ 1) whose per-page texts
contain no newline of their own, `extract_text_from_pdf` joins the page
texts in original page order with exactly N-1 newline separators: the
newline count of the result is N-1 and splitting the result on newlines
recovers exactly the per-page texts, so a page with no extractable text
contributes an empty segment rather than being dropped. -/
theorem pdf_join_pages_C5 (pages : List (Option (List Char)))
    (h0 : pages ≠ [])
    (h1 : ∀ p ∈ pages, '\n' ∉ p.getD []) :
    extract_text_from_pdf pages =
      List.intercalate ['\n'] (pages.map (fun p => p.getD [])) ∧
    (extract_text_from_pdf pages).count '\n' = pages.length - 1 ∧
    (extract_text_from_pdf pages).splitOn '\n' =
      pages.map (fun p => p.getD []) := by
  refine ⟨rfl, ?_, ?_⟩
  · rw [extract_text_from_pdf,
      count_intercalate_single '\n' (pages.map (fun p => p.getD []))
        (fun hm => h0 (List.map_eq_nil_iff.mp hm))
        (fun l hl => by
          obtain ⟨p, hp, hlp⟩ := List.mem_map.mp hl
          rw [← hlp]
          exact h1 p hp)]
    simp
  · exact List.splitOn_intercalate (pages.map (fun p => p.getD [])) '\n'
      (fun l hl => by
        obtain ⟨p, hp, hlp⟩ := List.mem_map.mp hl
        rw [← hlp]
        exact h1 p hp)
      (fun hm => h0 (List.map_eq_nil_iff.mp hm))

/-- A concrete three-page document (middle page has no text layer) used to
witness C5. -/
def pagesEx : List (Option (List Char)) := [some ['a'], none, some ['b']]

theorem pdf_join_pages_C5_witness :
    pagesEx ≠ [] ∧ (∀ p ∈ pagesEx, '\n' ∉ p.getD []) ∧
    (extract_text_from_pdf pagesEx =
        List.intercalate ['\n'] (pagesEx.map (fun p => p.getD [])) ∧
      (extract_text_from_pdf pagesEx).count '\n' = pagesEx.length - 1 ∧
      (extract_text_from_pdf pagesEx).splitOn '\n' =
        pagesEx.map (fun p => p.getD [])) :=
  ⟨by decide, by decide, pdf_join_pages_C5 pagesEx (by decide) (by decide)⟩

/-- Little-endian 16-bit encoding of `n % 2^16`. -/
def u16le (n : Nat) : List Nat := [n % 256, n / 256 % 256]

/-- Little-endian 32-bit encoding of `n % 2^32`. -/
def u32le (n : Nat) : List Nat :=
  [n % 256, n / 256 % 256, n / 65536 % 256, n / 16777216 % 256]

/-- Little-endian 16-bit decoding. -/
def u16dec (b0 b1 : Nat) : Nat := b0 + 256 * b1

/-- Little-endian 32-bit decoding. -/
def u32dec (b0 b1 b2 b3 : Nat) : Nat :=
  b0 + 256 * b1 + 65536 * b2 + 16777216 * b3

/-- One reflected CRC-32 shift step with the zlib polynomial. -/
def crcStep (c : Nat) : Nat :=
  if c % 2 = 1 then Nat.xor (c / 2) 3988292384 else c / 2

def crcIter : Nat → Nat → Nat
  | 0, c => c
  | n + 1, c => crcIter n (crcStep c)

/-- CRC-32 of a byte sequence, as Python's `zlib.crc32` computes it for
every zip entry. -/
def crc32 (data : List Nat) : Nat :=
  Nat.xor (data.foldl (fun c b => crcIter 8 (Nat.xor c b)) 4294967295) 4294967295

/-- UTF-8 encoding of one character. -/
def utf8Char (c : Char) : List Nat :=
  if c.toNat < 128 then [c.toNat]
  else if c.toNat < 2048 then [192 + c.toNat / 64, 128 + c.toNat % 64]
  else if c.toNat < 65536 then
    [224 + c.toNat / 4096, 128 + c.toNat / 64 % 64, 128 + c.toNat % 64]
  else [240 + c.toNat / 262144, 128 + c.toNat / 4096 % 64,
    128 + c.toNat / 64 % 64, 128 + c.toNat % 64]

/-- UTF-8 encoding of a string, as Python's `str.encode("utf-8")`. -/
def utf8 (s : List Char) : List Nat := (s.map utf8Char).flatten

theorem utf8Char_lt_two_pow (c : Char) : ∀ b ∈ utf8Char c, b < 4294967296 := by
  intro b hb
  have hval : c.toNat < 4294967296 := by
    have := c.val.toNat_lt
    simpa [Char.toNat] using this
  unfold utf8Char at hb
  split_ifs at hb with h1 h2 h3
  · simp only [List.mem_singleton] at hb; omega
  · simp only [List.mem_cons, List.not_mem_nil, or_false] at hb
    rcases hb with rfl | rfl <;> omega
  · simp only [List.mem_cons, List.not_mem_nil, or_false] at hb
    rcases hb with rfl | rfl | rfl <;> omega
  · simp only [List.mem_cons, List.not_mem_nil, or_false] at hb
    rcases hb with rfl | rfl | rfl | rfl <;> omega

theorem utf8_lt_two_pow (s : List Char) : ∀ b ∈ utf8 s, b < 4294967296 := by
  intro b hb
  unfold utf8 at hb
  obtain ⟨l, hl, hbl⟩ := List.mem_flatten.mp hb
  obtain ⟨ch, _, rfl⟩ := List.mem_map.mp hl
  exact utf8Char_lt_two_pow ch b hbl

theorem crcStep_lt (c : Nat) (h : c < 4294967296) : crcStep c < 4294967296 := by
  unfold crcStep
  have hpow : (2 : Nat) ^ 32 = 4294967296 := by norm_num
  split
  · have hx := @Nat.xor_lt_two_pow (c / 2) 3988292384 32
      (by rw [hpow]; omega) (by rw [hpow]; norm_num)
    rw [hpow] at hx
    exact hx
  · omega

theorem crcIter_lt : ∀ n c, c < 4294967296 → crcIter n c < 4294967296 := by
  intro n
  induction n with
  | zero => intro c h; simpa [crcIter] using h
  | succ n' ih => intro c h; exact ih (crcStep c) (crcStep_lt c h)

theorem crc32_lt (data : List Nat) (h : ∀ b ∈ data, b < 4294967296) :
    crc32 data < 4294967296 := by
  unfold crc32
  have hpow : (2 : Nat) ^ 32 = 4294967296 := by norm_num
  have hf : ∀ l c, (∀ b ∈ l, b < 4294967296) → c < 4294967296 →
      List.foldl (fun c b => crcIter 8 (Nat.xor c b)) c l < 4294967296 := by
    intro l
    induction l with
    | nil => intro c _ hc; simpa using hc
    | cons b t ih =>
      intro c hbs hc
      simp only [List.foldl_cons]
      refine ih _ (fun x hx => hbs x (List.mem_cons_of_mem b hx)) ?_
      apply crcIter_lt
      have hx := @Nat.xor_lt_two_pow c b 32
        (by rw [hpow]; exact hc) (by rw [hpow]; exact hbs b (List.mem_cons_self b t))
      rw [hpow] at hx
      exact hx
  have hfold := hf data 4294967295 h (by norm_num)
  have hx := @Nat.xor_lt_two_pow
    (data.foldl (fun c b => crcIter 8 (Nat.xor c b)) 4294967295) 4294967295 32
    (by rw [hpow]; exact hfold) (by rw [hpow]; norm_num)
  rw [hpow] at hx
  exact hx

/-- The 30-byte zip local file header that Python's `zipfile` writes for a
stored (uncompressed) entry on a seekable stream: signature `PK\x03\x04`,
version-needed 20, flags 0 (ASCII name, no data descriptor), method 0
(stored), DOS time and date, CRC-32, compressed and uncompressed sizes
(both equal to the data length for stored entries), name length, and an
empty extra field. -/
def localHeader (t d : Nat) (nameB dataB : List Nat) : List Nat :=
  [80, 75, 3, 4, 20, 0] ++ u16le 0 ++ u16le 0 ++ u16le t ++ u16le d ++
    u32le (crc32 dataB) ++ u32le dataB.length ++ u32le dataB.length ++
    u16le nameB.length ++ u16le 0

/-- One stored zip member: local header, then name, then the raw data. -/
def localEntry (t d : Nat) (nameB dataB : List Nat) : List Nat :=
  localHeader t d nameB dataB ++ nameB ++ dataB

/-- Central-directory entry as `zipfile` writes it: signature `PK\x01\x02`,
create version 20 on host system 3 (Unix), version-needed 20, flags 0,
method 0, DOS time/date, CRC-32, sizes, name/extra/comment lengths, disk
number, internal attributes, external attributes `0o600 << 16`, offset of
the member's local header, then the name. -/
def centralEntry (t d : Nat) (nameB dataB : List Nat) (offset : Nat) : List Nat :=
  [80, 75, 1, 2, 20, 3, 20, 0] ++ u16le 0 ++ u16le 0 ++ u16le t ++ u16le d ++
    u32le (crc32 dataB) ++ u32le dataB.length ++ u32le dataB.length ++
    u16le nameB.length ++ u16le 0 ++ u16le 0 ++ u16le 0 ++ u16le 0 ++
    u32le 25165824 ++ u32le offset ++ nameB

/-- End-of-central-directory record: signature `PK\x05\x06`, disk numbers,
entry counts, central-directory size and offset, empty comment. -/
def endRecord (count cdSize cdOffset : Nat) : List Nat :=
  [80, 75, 5, 6] ++ u16le 0 ++ u16le 0 ++ u16le count ++ u16le count ++
    u32le cdSize ++ u32le cdOffset ++ u16le 0

/-- Model of `create_zip_bytes` (src/main.py lines 157-164): write the three texts
as stored entries named `index.html`, `style.css`, `script.js`, in that
order, followed by the central directory and the end record.  `zipfile`
stamps every entry with the wall clock as a DOS time and date; the clock
enters the model as the parameters `t` and `d`. -/
def create_zip_bytes (t d : Nat) (html css js : List Char) : List Nat :=
  let e1 := localEntry t d (utf8 "index.html".toList) (utf8 html)
  let e2 := localEntry t d (utf8 "style.css".toList) (utf8 css)
  let e3 := localEntry t d (utf8 "script.js".toList) (utf8 js)
  let cd := centralEntry t d (utf8 "index.html".toList) (utf8 html) 0 ++
    centralEntry t d (utf8 "style.css".toList) (utf8 css) e1.length ++
    centralEntry t d (utf8 "script.js".toList) (utf8 js) (e1.length + e2.length)
  e1 ++ e2 ++ e3 ++ cd ++ endRecord 3 cd.length (e1.length + e2.length + e3.length)

/-- Parse one stored member from the head of a byte stream: match the
local signature and the 30-byte header, take the name and the data
according to the recorded lengths, and verify — as an extracting reader
does — that the method is `stored`, the lengths are consistent, and the
CRC-32 of the extracted data equals the recorded checksum. -/
def readEntry : List Nat → Option ((List Nat × List Nat) × List Nat)
  | 80 :: 75 :: 3 :: 4 :: _v1 :: _v2 :: _f1 :: _f2 :: m1 :: m2 :: _t1 :: _t2 ::
      _d1 :: _d2 :: c1 :: c2 :: c3 :: c4 :: s1 :: s2 :: s3 :: s4 ::
      w1 :: w2 :: w3 :: w4 :: n1 :: n2 :: x1 :: x2 :: rest =>
    let csize := u32dec s1 s2 s3 s4
    let nameLen := u16dec n1 n2
    let extraLen := u16dec x1 x2
    let name := rest.take nameLen
    let afterName := (rest.drop nameLen).drop extraLen
    let data := afterName.take csize
    let rem := afterName.drop csize
    if m1 = 0 ∧ m2 = 0 ∧ name.length = nameLen ∧ data.length = csize ∧
        u32dec w1 w2 w3 w4 = csize ∧ u32dec c1 c2 c3 c4 = crc32 data then
      some ((name, data), rem)
    else none
  | _ => none

/-- Does the stream begin with the central-directory signature? -/
def atCentralDir (bytes : List Nat) : Prop := bytes.take 4 = [80, 75, 1, 2]

instance (bytes : List Nat) : Decidable (atCentralDir bytes) := by
  unfold atCentralDir; infer_instance

/-- Fuelled sequential zip reader: collect stored members until the
central directory begins; fail on anything malformed. -/
def readEntriesAux : Nat → List Nat → Option (List (List Nat × List Nat))
  | 0, bytes => if atCentralDir bytes then some [] else none
  | fuel + 1, bytes =>
    if atCentralDir bytes then some []
    else
      match readEntry bytes with
      | some (e, rest) => (readEntriesAux fuel rest).map (e :: ·)
      | none => none

/-- Decompress a zip archive produced by sequential stored writes. -/
def readZip (bytes : List Nat) : Option (List (List Nat × List Nat)) :=
  readEntriesAux bytes.length bytes

theorem readEntry_localEntry (t d : Nat) (nameB dataB rest : List Nat)
    (hn : nameB.length < 65536) (hd : dataB.length < 4294967296)
    (hcrc : crc32 dataB < 4294967296) :
    readEntry (localEntry t d nameB dataB ++ rest) = some ((nameB, dataB), rest) := by
  have hshape : localEntry t d nameB dataB ++ rest =
      80 :: 75 :: 3 :: 4 :: 20 :: 0 :: 0 :: 0 :: 0 :: 0 :: (t % 256) ::
      (t / 256 % 256) :: (d % 256) :: (d / 256 % 256) ::
      (crc32 dataB % 256) :: (crc32 dataB / 256 % 256) ::
      (crc32 dataB / 65536 % 256) :: (crc32 dataB / 16777216 % 256) ::
      (dataB.length % 256) :: (dataB.length / 256 % 256) ::
      (dataB.length / 65536 % 256) :: (dataB.length / 16777216 % 256) ::
      (dataB.length % 256) :: (dataB.length / 256 % 256) ::
      (dataB.length / 65536 % 256) :: (dataB.length / 16777216 % 256) ::
      (nameB.length % 256) :: (nameB.length / 256 % 256) :: 0 :: 0 ::
      (nameB ++ (dataB ++ rest)) := by
    simp [localEntry, localHeader, u16le, u32le, List.append_assoc]
  have hnl : u16dec (nameB.length % 256) (nameB.length / 256 % 256) = nameB.length := by
    simp only [u16dec]; omega
  have hdl : u32dec (dataB.length % 256) (dataB.length / 256 % 256)
      (dataB.length / 65536 % 256) (dataB.length / 16777216 % 256) = dataB.length := by
    simp only [u32dec]; omega
  have hcl : u32dec (crc32 dataB % 256) (crc32 dataB / 256 % 256)
      (crc32 dataB / 65536 % 256) (crc32 dataB / 16777216 % 256) = crc32 dataB := by
    simp only [u32dec]; omega
  have hextra : u16dec 0 0 = 0 := by simp [u16dec]
  rw [hshape]
  simp only [readEntry, hnl, hdl, hcl, hextra, List.take_left, List.drop_left,
    List.drop_zero]
  simp

theorem readEntriesAux_cd (fuel : Nat) (bytes : List Nat) (h : atCentralDir bytes) :
    readEntriesAux fuel bytes = some [] := by
  cases fuel with
  | zero => simp [readEntriesAux, h]
  | succ g => simp [readEntriesAux, h]

theorem not_atCentralDir_localEntry (t d : Nat) (nameB dataB rest : List Nat) :
    ¬ atCentralDir (localEntry t d nameB dataB ++ rest) := by
  intro h
  unfold atCentralDir at h
  have htake : (localEntry t d nameB dataB ++ rest).take 4 = [80, 75, 3, 4] := by
    simp [localEntry, localHeader]
  rw [htake] at h
  simp at h

theorem atCentralDir_centralEntry (t d : Nat) (nameB dataB : List Nat)
    (off : Nat) (rest : List Nat) :
    atCentralDir (centralEntry t d nameB dataB off ++ rest) := by
  unfold atCentralDir
  simp [centralEntry]

theorem readEntriesAux_step (fuel t d : Nat) (nameB dataB rest : List Nat)
    (hn : nameB.length < 65536) (hd : dataB.length < 4294967296)
    (hcrc : crc32 dataB < 4294967296) :
    readEntriesAux (fuel + 1) (localEntry t d nameB dataB ++ rest) =
      (readEntriesAux fuel rest).map ((nameB, dataB) :: ·) := by
  show (if atCentralDir (localEntry t d nameB dataB ++ rest) then some []
    else
      match readEntry (localEntry t d nameB dataB ++ rest) with
      | some (e, rest') => (readEntriesAux fuel rest').map (e :: ·)
      | none => none) = (readEntriesAux fuel rest).map ((nameB, dataB) :: ·)
  rw [if_neg (not_atCentralDir_localEntry t d nameB dataB rest),
    readEntry_localEntry t d nameB dataB rest hn hd hcrc]

theorem localEntry_length (t d : Nat) (nameB dataB : List Nat) :
    (localEntry t d nameB dataB).length = 30 + nameB.length + dataB.length := by
  simp [localEntry, localHeader, u16le, u32le]
  omega

theorem readEntriesAux_three (t d : Nat) (n1 b1 n2 b2 n3 b3 tail : List Nat)
    (fuel : Nat)
    (hn1 : n1.length < 65536) (hb1 : b1.length < 4294967296)
    (hc1 : crc32 b1 < 4294967296)
    (hn2 : n2.length < 65536) (hb2 : b2.length < 4294967296)
    (hc2 : crc32 b2 < 4294967296)
    (hn3 : n3.length < 65536) (hb3 : b3.length < 4294967296)
    (hc3 : crc32 b3 < 4294967296)
    (htail : atCentralDir tail) :
    readEntriesAux (fuel + 3)
        (localEntry t d n1 b1 ++
          (localEntry t d n2 b2 ++ (localEntry t d n3 b3 ++ tail))) =
      some [(n1, b1), (n2, b2), (n3, b3)] := by
  have ha : fuel + 3 = (fuel + 2) + 1 := by omega
  have hb : fuel + 2 = (fuel + 1) + 1 := by omega
  rw [ha, readEntriesAux_step (fuel + 2) t d n1 b1 _ hn1 hb1 hc1,
    hb, readEntriesAux_step (fuel + 1) t d n2 b2 _ hn2 hb2 hc2,
    readEntriesAux_step fuel t d n3 b3 _ hn3 hb3 hc3,
    readEntriesAux_cd fuel tail htail]
  rfl

theorem readZip_threeEntries (t d : Nat) (n1 b1 n2 b2 n3 b3 tail : List Nat)
    (hn1 : n1.length < 65536) (hb1 : b1.length < 4294967296)
    (hc1 : crc32 b1 < 4294967296)
    (hn2 : n2.length < 65536) (hb2 : b2.length < 4294967296)
    (hc2 : crc32 b2 < 4294967296)
    (hn3 : n3.length < 65536) (hb3 : b3.length < 4294967296)
    (hc3 : crc32 b3 < 4294967296)
    (htail : atCentralDir tail) :
    readZip (localEntry t d n1 b1 ++
        (localEntry t d n2 b2 ++ (localEntry t d n3 b3 ++ tail))) =
      some [(n1, b1), (n2, b2), (n3, b3)] := by
  unfold readZip
  have hlen : (localEntry t d n1 b1 ++
      (localEntry t d n2 b2 ++ (localEntry t d n3 b3 ++ tail))).length =
      ((localEntry t d n1 b1 ++
        (localEntry t d n2 b2 ++ (localEntry t d n3 b3 ++ tail))).length - 3) + 3 := by
    simp only [List.length_append, localEntry_length]
    omega
  rw [hlen]
  exact readEntriesAux_three t d n1 b1 n2 b2 n3 b3 tail _
    hn1 hb1 hc1 hn2 hb2 hc2 hn3 hb3 hc3 htail

/-- C2: for every wall-clock stamp and every triple of texts whose UTF-8
encodings fit the archive's 32-bit size fields, decompressing the archive
produced by `create_zip_bytes` succeeds and yields exactly three entries
named `index.html`, `style.css`, `script.js`, written in that order, whose
contents are byte for byte the UTF-8 encodings of the three input texts. -/
theorem zip_roundtrip_C2 (t d : Nat) (html css js : List Char)
    (h1 : (utf8 html).length < 4294967296)
    (h2 : (utf8 css).length < 4294967296)
    (h3 : (utf8 js).length < 4294967296) :
    readZip (create_zip_bytes t d html css js) =
      some [(utf8 "index.html".toList, utf8 html),
        (utf8 "style.css".toList, utf8 css),
        (utf8 "script.js".toList, utf8 js)] := by
  obtain ⟨tail, htail, hshape⟩ :
      ∃ tail, atCentralDir tail ∧ create_zip_bytes t d html css js =
        localEntry t d (utf8 "index.html".toList) (utf8 html) ++
          (localEntry t d (utf8 "style.css".toList) (utf8 css) ++
            (localEntry t d (utf8 "script.js".toList) (utf8 js) ++ tail)) := by
    refine ⟨centralEntry t d (utf8 "index.html".toList) (utf8 html) 0 ++
      (centralEntry t d (utf8 "style.css".toList) (utf8 css)
          (localEntry t d (utf8 "index.html".toList) (utf8 html)).length ++
        (centralEntry t d (utf8 "script.js".toList) (utf8 js)
            ((localEntry t d (utf8 "index.html".toList) (utf8 html)).length +
              (localEntry t d (utf8 "style.css".toList) (utf8 css)).length) ++
          endRecord 3
            (centralEntry t d (utf8 "index.html".toList) (utf8 html) 0 ++
              centralEntry t d (utf8 "style.css".toList) (utf8 css)
                (localEntry t d (utf8 "index.html".toList) (utf8 html)).length ++
              centralEntry t d (utf8 "script.js".toList) (utf8 js)
                ((localEntry t d (utf8 "index.html".toList) (utf8 html)).length +
                  (localEntry t d (utf8 "style.css".toList) (utf8 css)).length)).length
            ((localEntry t d (utf8 "index.html".toList) (utf8 html)).length +
              (localEntry t d (utf8 "style.css".toList) (utf8 css)).length +
              (localEntry t d (utf8 "script.js".toList) (utf8 js)).length))),
      atCentralDir_centralEntry t d _ _ _ _, ?_⟩
    simp [create_zip_bytes, List.append_assoc]
  rw [hshape]
  exact readZip_threeEntries t d _ _ _ _ _ _ tail
    (by decide) h1 (crc32_lt _ (utf8_lt_two_pow html))
    (by decide) h2 (crc32_lt _ (utf8_lt_two_pow css))
    (by decide) h3 (crc32_lt _ (utf8_lt_two_pow js))
    htail

theorem zip_roundtrip_C2_witness :
    (utf8 "h".toList).length < 4294967296 ∧
    (utf8 "c".toList).length < 4294967296 ∧
    (utf8 "j".toList).length < 4294967296 ∧
    readZip (create_zip_bytes 33 1056 "h".toList "c".toList "j".toList) =
      some [(utf8 "index.html".toList, utf8 "h".toList),
        (utf8 "style.css".toList, utf8 "c".toList),
        (utf8 "script.js".toList, utf8 "j".toList)] :=
  ⟨by decide, by decide, by decide,
    zip_roundtrip_C2 33 1056 "h".toList "c".toList "j".toList
      (by decide) (by decide) (by decide)⟩

/-- The per-session mutable record (src/main.py lines 191-200). -/
structure SessionState where
  spec_text : List Char
  html_code : List Char
  css_code : List Char
  js_code : List Char
  zip_bytes : Option (List Nat)

/-- The freshly initialised session state (src/main.py lines 191-200). -/
def initState : SessionState := ⟨[], [], [], [], none⟩

/-- One user-triggered action.  `genSpec` models a click on the
specification button, carrying the uploaded file and the model's
specification response; `genSite` models a click on the site button,
carrying the model's raw response and the wall clock. -/
inductive UserAction where
  | genSpec (uploaded : Option UploadedFile) (specResult : List Char)
  | genSite (raw : List Char) (t d : Nat)

/-- The two button handlers (src/main.py lines 219-256) as a state
transition.  `genSpec` stores the specification only when a file was
uploaded and extraction produced non-whitespace text (otherwise an error is
shown and the state is unchanged); `genSite` always stores the three parsed
segments and packages the archive exactly when all three are nonempty,
leaving the previous archive bytes in place otherwise. -/
def step (pdfExtract docxExtract : List Nat → List Char)
    (a : UserAction) (s : SessionState) : SessionState :=
  match a with
  | .genSpec uploaded specResult =>
    match uploaded with
    | none => s
    | some f =>
      if pyStrip (extract_resume_text pdfExtract docxExtract (some f)) = [] then s
      else { s with spec_text := specResult }
  | .genSite raw t d =>
    let w := build_website_from_spec raw
    { s with
      html_code := w.html
      css_code := w.css
      js_code := w.js
      zip_bytes :=
        if w.html ≠ [] ∧ w.css ≠ [] ∧ w.js ≠ [] then
          some (create_zip_bytes t d w.html w.css w.js)
        else s.zip_bytes }

/-- Run a sequence of user actions from the initial session state. -/
def runActions (pdfExtract docxExtract : List Nat → List Char)
    (acts : List UserAction) : SessionState :=
  acts.foldl (fun s a => step pdfExtract docxExtract a s) initState

/-- C8: on the site-generation action the three parsed segments are always
stored for display and preview, and archive packaging happens if and only
if all three parsed segments are nonempty; when any segment is empty the
packaging step is skipped without error and the previous archive bytes are
left untouched. -/
theorem zip_gate_C8 (pdfExtract docxExtract : List Nat → List Char)
    (raw : List Char) (t d : Nat) (s : SessionState) :
    (step pdfExtract docxExtract (.genSite raw t d) s).html_code =
      (build_website_from_spec raw).html ∧
    (step pdfExtract docxExtract (.genSite raw t d) s).css_code =
      (build_website_from_spec raw).css ∧
    (step pdfExtract docxExtract (.genSite raw t d) s).js_code =
      (build_website_from_spec raw).js ∧
    ((build_website_from_spec raw).html ≠ [] ∧
        (build_website_from_spec raw).css ≠ [] ∧
        (build_website_from_spec raw).js ≠ [] →
      (step pdfExtract docxExtract (.genSite raw t d) s).zip_bytes =
        some (create_zip_bytes t d (build_website_from_spec raw).html
          (build_website_from_spec raw).css (build_website_from_spec raw).js)) ∧
    (¬ ((build_website_from_spec raw).html ≠ [] ∧
        (build_website_from_spec raw).css ≠ [] ∧
        (build_website_from_spec raw).js ≠ []) →
      (step pdfExtract docxExtract (.genSite raw t d) s).zip_bytes = s.zip_bytes) := by
  refine ⟨rfl, rfl, rfl, ?_, ?_⟩
  · intro hg
    show (if (build_website_from_spec raw).html ≠ [] ∧
        (build_website_from_spec raw).css ≠ [] ∧
        (build_website_from_spec raw).js ≠ [] then
          some (create_zip_bytes t d (build_website_from_spec raw).html
            (build_website_from_spec raw).css (build_website_from_spec raw).js)
        else s.zip_bytes) = _
    rw [if_pos hg]
  · intro hg
    show (if (build_website_from_spec raw).html ≠ [] ∧
        (build_website_from_spec raw).css ≠ [] ∧
        (build_website_from_spec raw).js ≠ [] then
          some (create_zip_bytes t d (build_website_from_spec raw).html
            (build_website_from_spec raw).css (build_website_from_spec raw).js)
        else s.zip_bytes) = s.zip_bytes
    rw [if_neg hg]

/-- A raw response with all three segments present. -/
def goodRawC8 : List Char := "--html--h--html----css--c--css----js--j--js--".toList

/-- A raw response in which the css and js markers are missing. -/
def badRawC8 : List Char := "--html--h--html--".toList

theorem zip_gate_C8_witness :
    ((build_website_from_spec goodRawC8).html ≠ [] ∧
      (build_website_from_spec goodRawC8).css ≠ [] ∧
      (build_website_from_spec goodRawC8).js ≠ []) ∧
    (step (fun _ => []) (fun _ => []) (.genSite goodRawC8 5 7) initState).zip_bytes =
      some (create_zip_bytes 5 7 (build_website_from_spec goodRawC8).html
        (build_website_from_spec goodRawC8).css
        (build_website_from_spec goodRawC8).js) ∧
    (step (fun _ => []) (fun _ => []) (.genSite badRawC8 5 7) initState).zip_bytes =
      none :=
  ⟨by decide,
    (zip_gate_C8 (fun _ => []) (fun _ => []) goodRawC8 5 7 initState).2.2.2.1
      (by decide),
    (zip_gate_C8 (fun _ => []) (fun _ => []) badRawC8 5 7 initState).2.2.2.2
      (by decide)⟩

/-- C10: in every session state reachable by any sequence of user actions
from the initial state, `zip_bytes` is either `none` or the archive bytes
of some triple of nonempty texts (built at some wall-clock stamp) — no
action ever stores an archive built from a triple containing an empty
string, though the stored triple may be stale relative to the currently
displayed segments. -/
theorem zip_bytes_invariant_C10 (pdfExtract docxExtract : List Nat → List Char)
    (acts : List UserAction) :
    (runActions pdfExtract docxExtract acts).zip_bytes = none ∨
    ∃ t d h c j, h ≠ [] ∧ c ≠ [] ∧ j ≠ [] ∧
      (runActions pdfExtract docxExtract acts).zip_bytes =
        some (create_zip_bytes t d h c j) := by
  suffices hgen : ∀ as : List UserAction, ∀ s : SessionState,
      (s.zip_bytes = none ∨ ∃ t d h c j, h ≠ [] ∧ c ≠ [] ∧ j ≠ [] ∧
        s.zip_bytes = some (create_zip_bytes t d h c j)) →
      ((as.foldl (fun s a => step pdfExtract docxExtract a s) s).zip_bytes = none ∨
        ∃ t d h c j, h ≠ [] ∧ c ≠ [] ∧ j ≠ [] ∧
          (as.foldl (fun s a => step pdfExtract docxExtract a s) s).zip_bytes =
            some (create_zip_bytes t d h c j)) by
    exact hgen acts initState (Or.inl rfl)
  intro as
  induction as with
  | nil => intro s hs; exact hs
  | cons a rest ih =>
    intro s hs
    apply ih
    cases a with
    | genSpec up spec =>
      cases up with
      | none => exact hs
      | some f =>
        by_cases hx :
            pyStrip (extract_resume_text pdfExtract docxExtract (some f)) = []
        · simpa [step, hx] using hs
        · simpa [step, hx] using hs
    | genSite raw t d =>
      by_cases hg : (build_website_from_spec raw).html ≠ [] ∧
          (build_website_from_spec raw).css ≠ [] ∧
          (build_website_from_spec raw).js ≠ []
      · right
        refine ⟨t, d, (build_website_from_spec raw).html,
          (build_website_from_spec raw).css, (build_website_from_spec raw).js,
          hg.1, hg.2.1, hg.2.2, ?_⟩
        show (if (build_website_from_spec raw).html ≠ [] ∧
            (build_website_from_spec raw).css ≠ [] ∧
            (build_website_from_spec raw).js ≠ [] then
              some (create_zip_bytes t d (build_website_from_spec raw).html
                (build_website_from_spec raw).css (build_website_from_spec raw).js)
            else s.zip_bytes) = _
        rw [if_pos hg]
      · have hz : (step pdfExtract docxExtract (.genSite raw t d) s).zip_bytes =
            s.zip_bytes := by
          show (if (build_website_from_spec raw).html ≠ [] ∧
              (build_website_from_spec raw).css ≠ [] ∧
              (build_website_from_spec raw).js ≠ [] then
                some (create_zip_bytes t d (build_website_from_spec raw).html
                  (build_website_from_spec raw).css
                  (build_website_from_spec raw).js)
              else s.zip_bytes) = s.zip_bytes
          rw [if_neg hg]
        rw [hz]
        exact hs

theorem link_rewrite_exact_C6_witness :
    pyReplace aTagPat aTagRepl "<p><a href=x>y</a></p>".toList =
      List.intercalate aTagRepl (pySplit aTagPat "<p><a href=x>y</a></p>".toList) ∧
    (pySplit aTagPat "<p><a href=x>y</a></p>".toList).length =
      countMatches aTagPat "<p><a href=x>y</a></p>".toList + 1 :=
  ⟨(link_rewrite_exact_C6 "<p><a href=x>y</a></p>".toList).2.1,
    (link_rewrite_exact_C6 "<p><a href=x>y</a></p>".toList).2.2.2.1⟩

theorem zip_bytes_invariant_C10_witness :
    (runActions (fun _ => []) (fun _ => [])
        [UserAction.genSite goodRawC8 5 7]).zip_bytes = none ∨
    ∃ t d h c j, h ≠ [] ∧ c ≠ [] ∧ j ≠ [] ∧
      (runActions (fun _ => []) (fun _ => [])
          [UserAction.genSite goodRawC8 5 7]).zip_bytes =
        some (create_zip_bytes t d h c j) :=
  zip_bytes_invariant_C10 (fun _ => []) (fun _ => []) [UserAction.genSite goodRawC8 5 7]
